import Mathlib

/-!
Verification of the Amundsen Sea Low (ASL) detection core of the
`amundsen-sea-low-index` package (`src/asli/asli.py`).

The embedding models the pure computational content of the source:

* pressure fields and land-sea masks are grids indexed by `Fin nr × Fin nc`,
  with latitude/longitude coordinate vectors `lats : Fin nr → ℚ`,
  `lons : Fin nc → ℚ` (latitudes descending north → south, as in ERA5 data);
* a *missing* value (NaN in the floating-point source) is modelled by `none`
  in `Option ℚ`; input pressure fields handed to `get_lows` are assumed
  finite (total functions into `ℚ`), land masking being the only source of
  missingness there, while `asl_sector_mean` accepts fields with missing
  cells (`Option ℚ`-valued) since `xarray.DataArray.mean` skips NaN;
* the third-party array primitives the source calls (`xarray`'s
  `where`/`sel`/`mean`, `pandas`' `groupby`/`idxmin`/`loc`,
  `skimage.feature.peak_local_max`) are modelled from their documented
  semantics, cell by cell, over explicit row-major cell lists.
-/

namespace Asli

/-- Bounds of a lat/lon region, as in the `ASL_REGION` mapping of
`src/asli/params.py` (`west`, `east`, `south`, `north`). -/
structure Region where
  west : ℚ
  east : ℚ
  south : ℚ
  north : ℚ
deriving Repr, DecidableEq

/-- `ASL_REGION` from `src/asli/params.py`: the Amundsen Sea bounding box. -/
def ASL_REGION : Region := ⟨170, 298, -80, -60⟩

/-- `MASK_THRESHOLD` from `src/asli/params.py`: a cell is land when its
land-sea-mask value is `>= MASK_THRESHOLD`. -/
def MASK_THRESHOLD : ℚ := 1/2

/-- One candidate / ASL row of the dataframes built in `get_lows` and consumed
by `define_minima_per_time_in_region`; column order
`[time, lon, lat, ActCenPres, SectorPres, RelCenPres]`.  `SectorPres` and
`RelCenPres` are `Option ℚ` because the sector mean is NaN when no ocean cell
lies in the ASL box. -/
structure Row where
  time : String
  lon : ℚ
  lat : ℚ
  ActCenPres : ℚ
  SectorPres : Option ℚ
  RelCenPres : Option ℚ
deriving Repr, DecidableEq

/-- All grid cells in row-major (numpy scan) order. -/
def cells (nr nc : Nat) : List (Fin nr × Fin nc) :=
  (List.finRange nr).flatMap (fun i => (List.finRange nc).map (fun j => (i, j)))

/-- Label-slice membership for the latitude axis: xarray
`sel(latitude=slice(north, south))` on a descending latitude coordinate keeps
the labels `la` with `south ≤ la ≤ north` (label slices are inclusive at both
ends). -/
def inLatSlice (r : Region) (la : ℚ) : Bool :=
  decide (r.south ≤ la) && decide (la ≤ r.north)

/-- Label-slice membership for the longitude axis: xarray
`sel(longitude=slice(west, east))` on an ascending longitude coordinate keeps
the labels `lo` with `west ≤ lo ≤ east`. -/
def inLonSlice (r : Region) (lo : ℚ) : Bool :=
  decide (r.west ≤ lo) && decide (lo ≤ r.east)

/-- `asl_sector_mean` (`src/asli/asli.py`, lines 23–39):
`da.where(mask < MASK_THRESHOLD).sel(latitude=slice(north, south),
longitude=slice(west, east)).mean()`.  `where` turns land cells into NaN
(`none`); `sel` keeps the cells inside the region's label slices; `mean`
averages the remaining non-missing values, and is NaN (`none`) when no value
remains (`skipna` semantics of `xarray.DataArray.mean`). -/
def asl_sector_mean {nr nc : Nat} (da : Fin nr → Fin nc → Option ℚ)
    (mask : Fin nr → Fin nc → ℚ) (lats : Fin nr → ℚ) (lons : Fin nc → ℚ)
    (asl_region : Region) : Option ℚ :=
  let sliced := (cells nr nc).filter
    (fun c => inLatSlice asl_region (lats c.1) && inLonSlice asl_region (lons c.2))
  let vals := sliced.filterMap
    (fun c => if mask c.1 c.2 < MASK_THRESHOLD then da c.1 c.2 else none)
  if vals.isEmpty then none else some (vals.sum / vals.length)

/-- The unweighted arithmetic mean the spec describes: average of the field's
non-missing values at ocean cells (`mask < MASK_THRESHOLD`) inside the
region's latitude/longitude box, with masked and missing cells excluded from
both the sum and the count, and every contributing cell weighted equally (no
cosine-latitude area weighting). -/
def sectorMeanUnweighted {nr nc : Nat} (da : Fin nr → Fin nc → Option ℚ)
    (mask : Fin nr → Fin nc → ℚ) (lats : Fin nr → ℚ) (lons : Fin nc → ℚ)
    (r : Region) : Option ℚ :=
  let ok := (cells nr nc).filter
    (fun c => inLatSlice r (lats c.1) && inLonSlice r (lons c.2) &&
      decide (mask c.1 c.2 < MASK_THRESHOLD) && (da c.1 c.2).isSome)
  if ok = [] then none
  else some (((ok.map (fun c => (da c.1 c.2).getD 0)).sum) / ok.length)

/-- Chebyshev (L∞) distance between two grid cells; `skimage`'s
`ensure_spacing` uses `p_norm = inf` by default when `peak_local_max` enforces
`min_distance`. -/
def chebDist {nr nc : Nat} (a b : Fin nr × Fin nc) : Nat :=
  max (max ((a.1 : Nat) - (b.1 : Nat)) ((b.1 : Nat) - (a.1 : Nat)))
    (max ((a.2 : Nat) - (b.2 : Nat)) ((b.2 : Nat) - (a.2 : Nat)))

/-- A cell equals the maximum filter of the field over the
`(2*d+1) × (2*d+1)` neighbourhood clipped at the grid edge (the
`image == maximum_filter(image)` test of `skimage.feature.peak_local_max`;
edge clipping is the `nearest` boundary mode).  A missing (NaN) cell is never
a peak, and missing neighbours never dominate (IEEE comparisons with NaN are
false). -/
def isLocalMax {nr nc : Nat} (g : Fin nr → Fin nc → Option ℚ) (d : Nat)
    (c : Fin nr × Fin nc) : Bool :=
  match g c.1 c.2 with
  | none => false
  | some v =>
    (cells nr nc).all (fun c' =>
      if chebDist c c' ≤ d then
        match g c'.1 c'.2 with
        | none => true
        | some w => decide (w ≤ v)
      else true)

/-- The strict threshold test of `skimage.feature.peak_local_max`
(`image > threshold_abs`); false whenever the cell value or the threshold is
NaN (`none`). -/
def aboveThreshold (x tabs : Option ℚ) : Bool :=
  match x, tabs with
  | some v, some t => decide (t < v)
  | _, _ => false

/-- `skimage.feature.peak_local_max(invert_data, min_distance, num_peaks,
exclude_border=False, threshold_abs)` as called in `get_lows`
(`src/asli/asli.py`, lines 74–80), modelled from its documented semantics:
collect the cells that equal their neighbourhood maximum and strictly exceed
`threshold_abs`, in row-major order; order them by decreasing intensity
(stably, so row-major order breaks ties); greedily drop a peak lying within
`min_distance` (Chebyshev) of an already accepted one; return at most
`num_peaks` coordinates.  `exclude_border=False` means no cell is discarded
for being near the grid edge. -/
def peak_local_max {nr nc : Nat} (g : Fin nr → Fin nc → Option ℚ)
    (min_distance num_peaks : Nat) (threshold_abs : Option ℚ) :
    List (Fin nr × Fin nc) :=
  let candidates := (cells nr nc).filter
    (fun c => isLocalMax g min_distance c && aboveThreshold (g c.1 c.2) threshold_abs)
  let withVal := candidates.filterMap (fun c => (g c.1 c.2).map (fun v => (c, v)))
  let sorted := List.insertionSort (fun p q : (Fin nr × Fin nc) × ℚ => p.2 ≥ q.2) withVal
  let spaced := sorted.foldl (fun acc p =>
    if acc.all (fun q => decide (min_distance < chebDist p.1 q.1)) then acc ++ [p]
    else acc) []
  (spaced.take num_peaks).map (fun p => p.1)

/-- The land-filled field of `get_lows` (`src/asli/asli.py`, lines 61–63):
`da.where(mask < MASK_THRESHOLD).fillna(da.max())` — ocean cells keep their
original value, land cells are replaced by the field's global maximum.
(`none` can only arise on an empty grid, where the fill value itself is NaN.) -/
def filledField {nr nc : Nat} (da : Fin nr → Fin nc → ℚ)
    (mask : Fin nr → Fin nc → ℚ) : Fin nr → Fin nc → Option ℚ :=
  fun i j =>
    if mask i j < MASK_THRESHOLD then some (da i j)
    else ((cells nr nc).map (fun c => da c.1 c.2)).max?

/-- The inverted field of `get_lows` (`src/asli/asli.py`, line 65):
`(da * -1.0).values` applied to the land-filled field, so minima become
maxima. -/
def invertField {nr nc : Nat} (da : Fin nr → Fin nc → ℚ)
    (mask : Fin nr → Fin nc → ℚ) : Fin nr → Fin nc → Option ℚ :=
  fun i j => (filledField da mask i j).map (fun v => v * (-1))

/-- `get_lows` (`src/asli/asli.py`, lines 42–104): compute the ASL-box sector
mean, fill land with the field's maximum, invert, find at most three peaks
above `threshold_abs`, and emit one labelled candidate row per peak, reading
`ActCenPres` from the land-filled field at the peak cell.
The source's `if threshold is None` fallback is unreachable: `threshold` is
the numpy scalar returned by `asl_sector_mean(...)` — NaN when the sector
mean is undefined, but never Python `None` — so `threshold_abs` is
`threshold * -1` (NaN times `-1` staying NaN, i.e. `none`), and with a NaN
threshold every peak comparison is false. -/
def get_lows {nr nc : Nat} (da : Fin nr → Fin nc → ℚ)
    (mask : Fin nr → Fin nc → ℚ) (lats : Fin nr → ℚ) (lons : Fin nc → ℚ)
    (time_str : String) : List Row :=
  let sector_mean_pres :=
    asl_sector_mean (fun i j => some (da i j)) mask lats lons ASL_REGION
  let threshold := sector_mean_pres
  let da2 := filledField da mask
  let invert_data := invertField da mask
  let threshold_abs : Option ℚ := threshold.map (fun t => t * (-1))
  let minima_yx := peak_local_max invert_data 5 3 threshold_abs
  minima_yx.map (fun c =>
    { time := time_str
      lon := lons c.2
      lat := lats c.1
      ActCenPres := (da2 c.1 c.2).getD 0
      SectorPres := sector_mean_pres
      RelCenPres := sector_mean_pres.map (fun s => (da2 c.1 c.2).getD 0 - s) })

/-- Variant of `get_lows` following the spec's words for the threshold
fallback (`step 4 of §4.2`): "if `SectorPres` could not be computed (no ocean
pixels in box), fall back to the inverted field's own mean as threshold"
(`threshold_abs = invert_data.mean()`, a plain numpy mean over all cells).
This is the behaviour the dead `if threshold is None` branch of the source
was evidently meant to produce; it differs from `get_lows` exactly when the
sector mean is missing. -/
def get_lows_fallback_spec {nr nc : Nat} (da : Fin nr → Fin nc → ℚ)
    (mask : Fin nr → Fin nc → ℚ) (lats : Fin nr → ℚ) (lons : Fin nc → ℚ)
    (time_str : String) : List Row :=
  let sector_mean_pres :=
    asl_sector_mean (fun i j => some (da i j)) mask lats lons ASL_REGION
  let da2 := filledField da mask
  let invert_data := invertField da mask
  let invertVals := (cells nr nc).filterMap (fun c => invert_data c.1 c.2)
  let threshold_abs : Option ℚ :=
    match sector_mean_pres with
    | some t => some (t * (-1))
    | none => if invertVals.isEmpty then none
              else some (invertVals.sum / invertVals.length)
  let minima_yx := peak_local_max invert_data 5 3 threshold_abs
  minima_yx.map (fun c =>
    { time := time_str
      lon := lons c.2
      lat := lats c.1
      ActCenPres := (da2 c.1 c.2).getD 0
      SectorPres := sector_mean_pres
      RelCenPres := sector_mean_pres.map (fun s => (da2 c.1 c.2).getD 0 - s) })

/-- The bounding-box predicate of `define_minima_per_time_in_region`
(`src/asli/asli.py`, lines 124–129): strict inequalities on all four sides,
in the source's order `lon > west & lon < east & lat > south & lat < north`. -/
def inBox (r : Region) (row : Row) : Bool :=
  decide (r.west < row.lon) && decide (row.lon < r.east) &&
    decide (r.south < row.lat) && decide (row.lat < r.north)

/-- The distinct time keys of a candidate table, in ascending (lexicographic)
order: `pandas.groupby("time")` visits its groups sorted by key
(`sort=True` default). -/
def sortedUniqueTimes (df : List Row) : List String :=
  List.insertionSort (fun a b : String => ¬ b < a) ((df.map (fun row => row.time)).dedup)

/-- One step of the `df2.loc[df2.groupby("time")["ActCenPres"].idxmin()]`
chain of `define_minima_per_time_in_region` (`src/asli/asli.py`, line 132):
for the group of rows at time `t`, `Series.idxmin` yields the label of the
*first* row attaining the minimal `ActCenPres`, and `.loc` fetches that row. -/
def selectRow (df : List Row) (t : String) : Option Row :=
  match ((df.filter (fun row => decide (row.time = t))).map
      (fun row => row.ActCenPres)).min? with
  | none => none
  | some m =>
    (df.filter (fun row => decide (row.time = t))).find?
      (fun row => decide (row.ActCenPres = m))

/-- `define_minima_per_time_in_region` (`src/asli/asli.py`, lines 116–136):
keep the candidates strictly inside the bounding box, then for each time
group (groups sorted by time key) take the first row with minimal
`ActCenPres`; `reset_index(drop=True)` only renumbers and is the identity
here. -/
def define_minima_per_time_in_region (df : List Row) (region : Region) :
    List Row :=
  let df2 := df.filter (inBox region)
  (sortedUniqueTimes df2).filterMap (selectRow df2)

/-- The per-time-step pipeline the spec calls LowDetector + ASLSelector:
`get_lows` followed by `define_minima_per_time_in_region`. -/
def detect_and_select {nr nc : Nat} (da : Fin nr → Fin nc → ℚ)
    (mask : Fin nr → Fin nc → ℚ) (lats : Fin nr → ℚ) (lons : Fin nc → ℚ)
    (time_str : String) (region : Region) : List Row :=
  define_minima_per_time_in_region (get_lows da mask lats lons time_str) region

/-- The sliced pressure stack `ASLICalculator.calculate` hands to
`_get_lows_by_time`: one 2-D field and its time label per index, along either
the `time` or the `season` dimension. -/
structure TimeStack (nr nc : Nat) where
  fieldAtTime : Nat → Fin nr → Fin nc → ℚ
  timeLabel : Nat → String
  fieldAtSeason : Nat → Fin nr → Fin nc → ℚ
  seasonLabel : Nat → String

/-- `_get_lows_by_time` (`src/asli/asli.py`, lines 107–113): slice index `t`
off the `season` or `time` dimension according to `slice_by`, then call
`get_lows` on the slice.  For any other `slice_by` the local `da_t` is never
assigned, and evaluating `get_lows(da_t, mask)` raises `UnboundLocalError`
before `get_lows` runs — modelled as `Except.error`. -/
def _get_lows_by_time {nr nc : Nat} (da : TimeStack nr nc) (slice_by : String)
    (t : Nat) (mask : Fin nr → Fin nc → ℚ) (lats : Fin nr → ℚ)
    (lons : Fin nc → ℚ) : Except String (List Row) :=
  if slice_by = "season" then
    Except.ok (get_lows (da.fieldAtSeason t) mask lats lons (da.seasonLabel t))
  else if slice_by = "time" then
    Except.ok (get_lows (da.fieldAtTime t) mask lats lons (da.timeLabel t))
  else
    Except.error "UnboundLocalError: local variable da_t referenced before assignment"

/-- The attribute state of `ASLICalculator` (`src/asli/asli.py`, lines
175–190): every data attribute starts as `None` and is filled by the read
methods.  The mask type `μ` and the pressure-data type `δ` are parameters
because the concrete values come from NetCDF files. -/
structure ASLICalculator (μ δ : Type) where
  land_sea_mask : Option μ
  raw_msl_data : Option δ
  masked_msl_data : Option δ
  sliced_msl : Option δ
  sliced_masked_msl : Option δ
deriving DecidableEq

/-- `ASLICalculator.read_msl_data` (`src/asli/asli.py`, lines 201–229),
modelling its control flow; the xarray file open and the
`where`/`slice_region`/unit-conversion transforms are abstracted as the
parameters `openedMsl`, `whereMask`, `sliceReg` and `toHPa`.  When the
land-sea mask has not been loaded the source logs
"Must read in land-sea mask before mean sea level data." and returns
normally, leaving the state untouched; it raises no exception, so the
`Except.error` constructor (an uncaught exception aborting the run) is never
produced.  Returned alongside the new state is the list of error messages
logged. -/
def read_msl_data {μ δ : Type} (s : ASLICalculator μ δ) (openedMsl : δ)
    (whereMask : μ → δ → δ) (sliceReg : δ → δ) (toHPa : δ → δ) :
    Except String (ASLICalculator μ δ × List String) :=
  match s.land_sea_mask with
  | none =>
    Except.ok (s, ["Must read in land-sea mask before mean sea level data."])
  | some lsm =>
    let raw := openedMsl
    let masked := whereMask lsm raw
    Except.ok ({ s with
      raw_msl_data := some raw
      masked_msl_data := some masked
      sliced_msl := some (toHPa (sliceReg raw))
      sliced_masked_msl := some (sliceReg masked) }, [])

/-- A candidate row whose longitude lies outside the ASL box (lon 100 < west
170); its time step is present in the input. -/
def outsideBoxRow : Row :=
  { time := "1979-01-01", lon := 100, lat := -70, ActCenPres := 900,
    SectorPres := some 975, RelCenPres := some (-75) }

/-- A concrete candidate table with two candidates at the same time step:
the deeper one (980) outside the ASL box (lon 100) and the shallower one
(990) inside (lon 200). -/
def insideOutsideDf : List Row :=
  [{ time := "1979-01-01", lon := 100, lat := -70, ActCenPres := 980,
     SectorPres := some 975, RelCenPres := some 5 },
   { time := "1979-01-01", lon := 200, lat := -70, ActCenPres := 990,
     SectorPres := some 975, RelCenPres := some 15 }]

/-! ### Concrete input grids used by witnesses and counterexamples -/
/-- 2×2 all-ocean pressure field with a single 900 hPa low at cell (0,0),
1000 hPa elsewhere. -/
def daLow : Fin 2 → Fin 2 → ℚ := fun i j => if i = 0 ∧ j = 0 then 900 else 1000

/-- All-ocean land-sea mask. -/
def maskOcean : Fin 2 → Fin 2 → ℚ := fun _ _ => 0

/-- Latitudes -70, -71 (both inside the ASL box band). -/
def latsIn : Fin 2 → ℚ := fun i => if i = 0 then -70 else -71

/-- Longitudes 200, 201 (both inside the ASL box band). -/
def lonsIn : Fin 2 → ℚ := fun j => if j = 0 then 200 else 201

/-- The candidate row `get_lows` detects on `daLow`/`maskOcean`. -/
def oceanLowRow : Row :=
  { time := "1979-01-01", lon := 200, lat := -70, ActCenPres := 900,
    SectorPres := some 975, RelCenPres := some (-75) }

/-- Latitudes -59 (north of the ASL box) and -70 (inside it). -/
def latsEdge : Fin 2 → ℚ := fun i => if i = 0 then -59 else -70

/-- Mask that is ocean on the northern row (outside the ASL box) and land on
the southern row (the only row inside the box): the ASL box holds no ocean
pixel, so the sector mean cannot be computed. -/
def maskSouthLand : Fin 2 → Fin 2 → ℚ := fun i _ => if i = 0 then 0 else 1

/-- A candidate row sitting exactly on the western edge of the ASL box
(lon = 170 = ASL_REGION.west). -/
def westBoundaryRow : Row :=
  { time := "1979-01-01", lon := 170, lat := -70, ActCenPres := 900,
    SectorPres := some 975, RelCenPres := some (-75) }

/-- A candidate row strictly inside the ASL box. -/
def insideBoxRow : Row :=
  { time := "1979-01-01", lon := 200, lat := -70, ActCenPres := 900,
    SectorPres := some 975, RelCenPres := some (-75) }

/-- The qualification predicate of the detection step for a given sector-mean
threshold `S`: a cell of the inverted, land-filled field qualifies as a peak
when it equals its neighbourhood maximum (`min_distance = 5`) and strictly
exceeds `threshold_abs = S * -1`, exactly the candidate test `get_lows` hands
to `peak_local_max`. -/
def qualifyingPeaks {nr nc : Nat} (da : Fin nr → Fin nc → ℚ)
    (mask : Fin nr → Fin nc → ℚ) (S : ℚ) : List (Fin nr × Fin nc) :=
  (cells nr nc).filter (fun c =>
    isLocalMax (invertField da mask) 5 c &&
      aboveThreshold (invertField da mask c.1 c.2) (some (S * (-1))))

/-- The freshly constructed `ASLICalculator` state: every data attribute is
`None`, as set by `__init__`. -/
def emptyCalc : ASLICalculator Unit Unit :=
  { land_sea_mask := none, raw_msl_data := none, masked_msl_data := none,
    sliced_msl := none, sliced_masked_msl := none }

/-- A concrete one-index pressure stack built from `daLow`. -/
def constStack : TimeStack 2 2 :=
  { fieldAtTime := fun _ => daLow, timeLabel := fun _ => "1979-01-01",
    fieldAtSeason := fun _ => daLow, seasonLabel := fun _ => "1979-03-01" }

/-! ### Theorems -/

theorem mem_cells {nr nc : Nat} (c : Fin nr × Fin nc) : c ∈ cells nr nc := by
  rcases c with ⟨i, j⟩
  unfold cells
  rw [List.mem_flatMap]
  exact ⟨i, List.mem_finRange i, List.mem_map.mpr ⟨j, List.mem_finRange j, rfl⟩⟩

/-! ### Helper lemmas about list folds, `min?`/`max?`, and `find?` -/
theorem foldl_max_le {l : List ℚ} : ∀ {a x : ℚ}, x ∈ a :: l → x ≤ l.foldl max a := by
  induction l with
  | nil =>
    intro a x hx
    rw [List.mem_singleton] at hx
    simpa [List.foldl] using hx.le
  | cons b l ih =>
    intro a x hx
    have hst : (b :: l).foldl max a = l.foldl max (max a b) := rfl
    rw [hst]
    rcases List.mem_cons.mp hx with hx | hx
    · subst hx
      exact le_trans (le_max_left x b) (ih (List.mem_cons_self _ _))
    · rcases List.mem_cons.mp hx with hx | hx
      · subst hx
        exact le_trans (le_max_right a x) (ih (List.mem_cons_self _ _))
      · exact ih (List.mem_cons_of_mem _ hx)

theorem max?_bound {l : List ℚ} {M : ℚ} (h : l.max? = some M) :
    ∀ x ∈ l, x ≤ M := by
  cases l with
  | nil => simp [List.max?] at h
  | cons a l =>
    intro x hx
    have hM : l.foldl max a = M := by simpa [List.max?] using h
    exact hM ▸ foldl_max_le hx

theorem foldl_min_le {l : List ℚ} : ∀ {a x : ℚ}, x ∈ a :: l → l.foldl min a ≤ x := by
  induction l with
  | nil =>
    intro a x hx
    rw [List.mem_singleton] at hx
    simpa [List.foldl] using hx.ge
  | cons b l ih =>
    intro a x hx
    have hst : (b :: l).foldl min a = l.foldl min (min a b) := rfl
    rw [hst]
    rcases List.mem_cons.mp hx with hx | hx
    · subst hx
      exact le_trans (ih (List.mem_cons_self _ _)) (min_le_left x b)
    · rcases List.mem_cons.mp hx with hx | hx
      · subst hx
        exact le_trans (ih (List.mem_cons_self _ _)) (min_le_right a x)
      · exact ih (List.mem_cons_of_mem _ hx)

theorem foldl_min_mem {l : List ℚ} : ∀ {a : ℚ}, l.foldl min a ∈ a :: l := by
  induction l with
  | nil => intro a; simp [List.foldl]
  | cons b l ih =>
    intro a
    have hst : (b :: l).foldl min a = l.foldl min (min a b) := rfl
    rw [hst]
    rcases List.mem_cons.mp (@ih (min a b)) with hx | hx
    · rw [hx]
      rcases min_choice a b with hm | hm
      · rw [hm]; exact List.mem_cons_self _ _
      · rw [hm]; exact List.mem_cons_of_mem _ (List.mem_cons_self _ _)
    · exact List.mem_cons_of_mem _ (List.mem_cons_of_mem _ hx)

theorem min?_spec {l : List ℚ} {m : ℚ} (h : l.min? = some m) :
    m ∈ l ∧ ∀ x ∈ l, m ≤ x := by
  cases l with
  | nil => simp [List.min?] at h
  | cons a l =>
    have hm : l.foldl min a = m := by simpa [List.min?] using h
    exact ⟨hm ▸ foldl_min_mem, fun x hx => hm ▸ foldl_min_le hx⟩

theorem min?_isSome_of_ne_nil {l : List ℚ} (h : l ≠ []) : ∃ m, l.min? = some m := by
  cases l with
  | nil => exact absurd rfl h
  | cons a l => exact ⟨l.foldl min a, rfl⟩

theorem find?_split {α : Type} {p : α → Bool} :
    ∀ {l : List α} {b : α}, l.find? p = some b →
      ∃ l1 l2, l = l1 ++ b :: l2 ∧ ∀ a ∈ l1, p a = false := by
  intro l
  induction l with
  | nil => intro b h; simp [List.find?] at h
  | cons x xs ih =>
    intro b h
    by_cases hx : p x = true
    · rw [List.find?_cons_of_pos _ hx] at h
      obtain rfl : x = b := by injection h
      exact ⟨[], xs, rfl, by simp⟩
    · rw [List.find?_cons_of_neg _ hx] at h
      obtain ⟨l1, l2, heq, hall⟩ := ih h
      refine ⟨x :: l1, l2, by rw [heq, List.cons_append], ?_⟩
      intro a ha
      rcases List.mem_cons.mp ha with ha | ha
      · exact ha ▸ Bool.not_eq_true _ ▸ (by simpa using hx)
      · exact hall a ha

theorem exists_find?_eq_some {α : Type} {p : α → Bool} {l : List α}
    (h : ∃ x ∈ l, p x = true) : ∃ b, l.find? p = some b := by
  induction l with
  | nil => simp at h
  | cons x xs ih =>
    by_cases hx : p x = true
    · exact ⟨x, List.find?_cons_of_pos _ hx⟩
    · rw [List.find?_cons_of_neg _ hx]
      apply ih
      obtain ⟨y, hy, hpy⟩ := h
      rcases List.mem_cons.mp hy with hy | hy
      · exact absurd (hy ▸ hpy) hx
      · exact ⟨y, hy, hpy⟩

/-! ### Lemmas about the selection stage -/
theorem selectRow_spec {df : List Row} {t : String}
    (h : df.filter (fun row => decide (row.time = t)) ≠ []) :
    ∃ row, selectRow df t = some row ∧ row.time = t ∧
      row ∈ df.filter (fun row => decide (row.time = t)) ∧
      (∀ r' ∈ df.filter (fun row => decide (row.time = t)),
        row.ActCenPres ≤ r'.ActCenPres) ∧
      ∃ l1 l2, df.filter (fun row => decide (row.time = t)) = l1 ++ row :: l2 ∧
        ∀ r' ∈ l1, row.ActCenPres < r'.ActCenPres := by
  set group := df.filter (fun row => decide (row.time = t)) with hgroup
  have hmap : (group.map (fun row => row.ActCenPres)) ≠ [] := by
    intro hnil
    exact h (List.map_eq_nil_iff.mp hnil)
  obtain ⟨m, hm⟩ := min?_isSome_of_ne_nil hmap
  obtain ⟨hmem, hle⟩ := min?_spec hm
  obtain ⟨r0, hr0, hr0v⟩ := List.mem_map.mp hmem
  obtain ⟨row, hfind⟩ := @exists_find?_eq_some Row
    (fun row => decide (row.ActCenPres = m)) group ⟨r0, hr0, by simpa using hr0v⟩
  have hrowm : row.ActCenPres = m := by simpa using List.find?_some hfind
  have hrowg : row ∈ group := List.mem_of_find?_eq_some hfind
  have hsel : selectRow df t = some row := by
    unfold selectRow
    rw [← hgroup, hm]
    exact hfind
  refine ⟨row, hsel, ?_, hrowg, ?_, ?_⟩
  · have := (List.mem_filter.mp hrowg).2
    simpa using this
  · intro r' hr'
    have : m ≤ r'.ActCenPres := hle _ (List.mem_map.mpr ⟨r', hr', rfl⟩)
    exact hrowm ▸ this
  · obtain ⟨l1, l2, heq, hall⟩ := find?_split hfind
    refine ⟨l1, l2, heq, ?_⟩
    intro r' hr'
    have hr'g : r' ∈ group := by
      rw [heq]
      exact List.mem_append.mpr (Or.inl hr')
    have hne : ¬ (r'.ActCenPres = m) := by simpa using hall r' hr'
    have hlem : m ≤ r'.ActCenPres := hle _ (List.mem_map.mpr ⟨r', hr'g, rfl⟩)
    rw [hrowm]
    exact lt_of_le_of_ne hlem (fun hc => hne hc.symm)

theorem selectRow_time {df : List Row} {t : String} {row : Row}
    (h : selectRow df t = some row) :
    row.time = t ∧ row ∈ df.filter (fun r' => decide (r'.time = t)) := by
  unfold selectRow at h
  rcases hm : ((df.filter (fun r' => decide (r'.time = t))).map
      (fun r' => r'.ActCenPres)).min? with _ | m
  · rw [hm] at h
    exact absurd h (by simp)
  · rw [hm] at h
    have hg := List.mem_of_find?_eq_some h
    exact ⟨by simpa using (List.mem_filter.mp hg).2, hg⟩

theorem mem_sortedUniqueTimes {df : List Row} {s : String} :
    s ∈ sortedUniqueTimes df ↔ ∃ row ∈ df, row.time = s := by
  unfold sortedUniqueTimes
  rw [List.mem_insertionSort, List.mem_dedup, List.mem_map]

theorem nodup_sortedUniqueTimes (df : List Row) : (sortedUniqueTimes df).Nodup := by
  unfold sortedUniqueTimes
  exact ((List.perm_insertionSort _ _).nodup_iff).mpr (List.nodup_dedup _)

theorem filter_time_filterMap (L : List String) (hnd : L.Nodup) (df : List Row)
    (hall : ∀ s ∈ L, ∃ r0, selectRow df s = some r0) (t : String) :
    (L.filterMap (selectRow df)).filter (fun row => decide (row.time = t)) =
      if t ∈ L then (selectRow df t).toList else [] := by
  induction L with
  | nil => simp
  | cons s L ih =>
    obtain ⟨rw0, hrw⟩ := hall s (List.mem_cons_self _ _)
    have hrt : rw0.time = s := (selectRow_time hrw).1
    have hstep : (s :: L).filterMap (selectRow df) =
        rw0 :: L.filterMap (selectRow df) := by
      rw [List.filterMap_cons, hrw]
    have hndr : L.Nodup := (List.nodup_cons.mp hnd).2
    have hns : s ∉ L := (List.nodup_cons.mp hnd).1
    have ihL := ih hndr (fun u hu => hall u (List.mem_cons_of_mem _ hu))
    rw [hstep]
    by_cases hst : s = t
    · subst hst
      rw [List.filter_cons, if_pos (by simp [hrt]), ihL, if_neg hns,
        if_pos (List.mem_cons_self s L), hrw]
      rfl
    · rw [List.filter_cons, if_neg (by simp [hrt, hst]), ihL]
      by_cases htL : t ∈ L
      · rw [if_pos htL, if_pos (List.mem_cons_of_mem _ htL)]
      · rw [if_neg htL,
          if_neg (fun hc => (List.mem_cons.mp hc).elim (fun he => hst he.symm) htL)]

theorem mem_define_minima {df : List Row} {region : Region} {row : Row}
    (h : row ∈ define_minima_per_time_in_region df region) :
    row ∈ df.filter (inBox region) := by
  unfold define_minima_per_time_in_region at h
  obtain ⟨s, _, hsel⟩ := List.mem_filterMap.mp h
  exact List.mem_of_mem_filter (selectRow_time hsel).2

/-! ### Lemmas about the peak search and the sector mean -/
theorem mem_spacing_foldl {nr nc : Nat} {d : Nat}
    {l acc : List ((Fin nr × Fin nc) × ℚ)} {p : (Fin nr × Fin nc) × ℚ}
    (h : p ∈ l.foldl (fun acc q =>
      if acc.all (fun q' => decide (d < chebDist q.1 q'.1)) then acc ++ [q]
      else acc) acc) :
    p ∈ acc ∨ p ∈ l := by
  induction l generalizing acc with
  | nil => exact Or.inl h
  | cons q l ih =>
    rcases ih h with hq | hq
    · dsimp only at hq
      by_cases hc : acc.all (fun q' => decide (d < chebDist q.1 q'.1)) = true
      · rw [if_pos hc] at hq
        rcases List.mem_append.mp hq with hq | hq
        · exact Or.inl hq
        · exact Or.inr (List.mem_cons.mpr (Or.inl (by simpa using hq)))
      · rw [if_neg hc] at hq
        exact Or.inl hq
    · exact Or.inr (List.mem_cons_of_mem _ hq)

theorem mem_peak_local_max {nr nc : Nat} {g : Fin nr → Fin nc → Option ℚ}
    {min_distance num_peaks : Nat} {threshold_abs : Option ℚ}
    {c : Fin nr × Fin nc}
    (h : c ∈ peak_local_max g min_distance num_peaks threshold_abs) :
    isLocalMax g min_distance c = true ∧
      aboveThreshold (g c.1 c.2) threshold_abs = true := by
  unfold peak_local_max at h
  obtain ⟨p, hp, hpc⟩ := List.mem_map.mp h
  have hp' := List.mem_of_mem_take hp
  rcases mem_spacing_foldl hp' with hfalse | hp''
  · simp at hfalse
  have hp3 := List.mem_insertionSort
    (fun p q : (Fin nr × Fin nc) × ℚ => p.2 ≥ q.2) |>.mp hp''
  obtain ⟨c', hc', hgc'⟩ := List.mem_filterMap.mp hp3
  have hcc : c' = c := by
    rcases hg : g c'.1 c'.2 with _ | v
    · rw [hg] at hgc'
      exact absurd hgc' (by simp)
    · rw [hg] at hgc'
      have : (c', v) = p := by simpa using hgc'
      rw [← hpc, ← this]
  subst hcc
  have := (List.mem_filter.mp hc').2
  simpa using this

theorem aboveThreshold_some {x tabs : Option ℚ} (h : aboveThreshold x tabs = true) :
    ∃ v t, x = some v ∧ tabs = some t ∧ t < v := by
  unfold aboveThreshold at h
  rcases x with _ | v
  · simp at h
  · rcases tabs with _ | t
    · simp at h
    · exact ⟨v, t, rfl, rfl, by simpa using h⟩

theorem asl_sector_mean_le_max {nr nc : Nat} (da : Fin nr → Fin nc → ℚ)
    (mask : Fin nr → Fin nc → ℚ) (lats : Fin nr → ℚ) (lons : Fin nc → ℚ)
    {S M : ℚ}
    (hS : asl_sector_mean (fun i j => some (da i j)) mask lats lons ASL_REGION
      = some S)
    (hM : ((cells nr nc).map (fun c => da c.1 c.2)).max? = some M) :
    S ≤ M := by
  unfold asl_sector_mean at hS
  set sliced := (cells nr nc).filter
    (fun c => inLatSlice ASL_REGION (lats c.1) && inLonSlice ASL_REGION (lons c.2))
    with hsliced
  set vals := sliced.filterMap
    (fun c => if mask c.1 c.2 < MASK_THRESHOLD then some (da c.1 c.2) else none)
    with hvals
  by_cases hempty : vals.isEmpty
  · rw [if_pos hempty] at hS
    exact absurd hS (by simp)
  · rw [if_neg hempty] at hS
    have hSval : vals.sum / (vals.length : ℚ) = S := by
      simpa using hS
    have hlen : 0 < vals.length := by
      cases hv : vals with
      | nil => rw [hv] at hempty; simp at hempty
      | cons a l => simp [hv]
    have hub : ∀ x ∈ vals, x ≤ M := by
      intro x hx
      obtain ⟨c, _, hc⟩ := List.mem_filterMap.mp hx
      have hxda : x = da c.1 c.2 := by
        by_cases hm : mask c.1 c.2 < MASK_THRESHOLD
        · rw [if_pos hm] at hc
          exact (Option.some_injective _ hc).symm
        · rw [if_neg hm] at hc
          exact absurd hc (by simp)
      refine max?_bound hM _ ?_
      rw [hxda]
      exact List.mem_map.mpr ⟨c, mem_cells c, rfl⟩
    have hsum : vals.sum ≤ (vals.length : ℚ) * M := by
      have := List.sum_le_card_nsmul vals M hub
      simpa [nsmul_eq_mul] using this
    rw [← hSval]
    rw [div_le_iff₀ (by exact_mod_cast hlen)]
    calc vals.sum ≤ (vals.length : ℚ) * M := hsum
      _ = M * (vals.length : ℚ) := by ring

theorem filterMap_mask_eq {nr nc : Nat} (da : Fin nr → Fin nc → Option ℚ)
    (mask : Fin nr → Fin nc → ℚ) (P : Fin nr × Fin nc → Bool) :
    ∀ L : List (Fin nr × Fin nc),
      (L.filter P).filterMap
          (fun c => if mask c.1 c.2 < MASK_THRESHOLD then da c.1 c.2 else none) =
        (L.filter (fun c => P c && decide (mask c.1 c.2 < MASK_THRESHOLD) &&
            (da c.1 c.2).isSome)).map (fun c => (da c.1 c.2).getD 0) := by
  intro L
  induction L with
  | nil => rfl
  | cons c L ih =>
    by_cases hP : P c = true
    · rw [List.filter_cons, if_pos hP, List.filterMap_cons]
      by_cases hm : mask c.1 c.2 < MASK_THRESHOLD
      · rw [if_pos hm]
        rcases hda : da c.1 c.2 with _ | v
        · rw [List.filter_cons, if_neg (by simp [hP, hm, hda]), ih]
        · rw [List.filter_cons, if_pos (by simp [hP, hm, hda]), List.map_cons, ih,
            hda]
          simp
      · rw [if_neg hm, List.filter_cons, if_neg (by simp [hP, hm]), ih]
    · rw [List.filter_cons, if_neg (by simp [hP]), List.filter_cons,
        if_neg (by simp [hP]), ih]

/-- Claim C9: `asl_sector_mean` computes exactly the unweighted arithmetic mean
of the field's non-missing values at ocean cells (`mask < MASK_THRESHOLD`)
inside the region's latitude/longitude box — masked (land) and missing cells
are excluded from both the sum and the count, and no cosine-latitude area
weighting is applied. -/
theorem asl_sector_mean_is_unweighted_ocean_mean {nr nc : Nat}
    (da : Fin nr → Fin nc → Option ℚ) (mask : Fin nr → Fin nc → ℚ)
    (lats : Fin nr → ℚ) (lons : Fin nc → ℚ) (r : Region) :
    asl_sector_mean da mask lats lons r = sectorMeanUnweighted da mask lats lons r := by
  unfold asl_sector_mean sectorMeanUnweighted
  dsimp only
  rw [filterMap_mask_eq da mask
    (fun c => inLatSlice r (lats c.1) && inLonSlice r (lons c.2)) (cells nr nc)]
  set ok := (cells nr nc).filter
    (fun c => (inLatSlice r (lats c.1) && inLonSlice r (lons c.2)) &&
      decide (mask c.1 c.2 < MASK_THRESHOLD) && (da c.1 c.2).isSome) with hok
  by_cases h : ok = []
  · rw [h]
    simp
  · rw [if_neg (by simp [List.isEmpty_iff, h]), if_neg h]
    simp

theorem selectRow_total (df2 : List Row) :
    ∀ s ∈ sortedUniqueTimes df2, ∃ r0, selectRow df2 s = some r0 := by
  intro s hs
  obtain ⟨row, hrow, hts⟩ := mem_sortedUniqueTimes.mp hs
  have hne : df2.filter (fun r' => decide (r'.time = s)) ≠ [] :=
    List.ne_nil_of_mem (List.mem_filter.mpr ⟨hrow, by simp [hts]⟩)
  obtain ⟨r0, hr0, _⟩ := selectRow_spec hne
  exact ⟨r0, hr0⟩

/-- Claim C1 (amended): for every input candidate table,
`define_minima_per_time_in_region` returns exactly one output row per
distinct time step that has at least one candidate surviving the bounding-box
filter; a time step whose candidates are all removed by the filter
contributes no output row at all — no placeholder row is emitted. -/
theorem one_output_row_per_surviving_time (df : List Row) (region : Region)
    (t : String) :
    ((define_minima_per_time_in_region df region).filter
        (fun row => decide (row.time = t))).length =
      if ∃ row ∈ df.filter (inBox region), row.time = t then 1 else 0 := by
  unfold define_minima_per_time_in_region
  dsimp only
  set df2 := df.filter (inBox region) with hdf2
  rw [filter_time_filterMap _ (nodup_sortedUniqueTimes df2) df2
    (selectRow_total df2) t]
  by_cases h : ∃ row ∈ df2, row.time = t
  · rw [if_pos (mem_sortedUniqueTimes.mpr h), if_pos h]
    obtain ⟨row, hrow, htt⟩ := h
    have hne : df2.filter (fun r' => decide (r'.time = t)) ≠ [] :=
      List.ne_nil_of_mem (List.mem_filter.mpr ⟨hrow, by simp [htt]⟩)
    obtain ⟨r0, hr0, _⟩ := selectRow_spec hne
    rw [hr0]
    rfl
  · rw [if_neg (fun hc => h (mem_sortedUniqueTimes.mp hc)), if_neg h]
    rfl

/-- Claim C1, counterexample: an input with one distinct time step whose only
candidate is removed by the bounding-box filter produces an *empty* output —
not one row per distinct input time step, and no placeholder row with only
the time populated. -/
theorem one_output_row_per_time_counterexample :
    define_minima_per_time_in_region [outsideBoxRow] ASL_REGION = [] ∧
    ([outsideBoxRow].map (fun row => row.time)).dedup.length = 1 := by
  with_unfolding_all decide

/-- Claim C4: for every time step with at least one candidate surviving the
bounding-box filter, the selected ASL row is the surviving candidate with
minimum `ActCenPres`; ties on `ActCenPres` go to the first-encountered
surviving candidate (everything strictly before the selected row in the
surviving group has strictly greater `ActCenPres`); and no row outside the
box is ever selected. -/
theorem deepest_low_per_time_selected (df : List Row) (region : Region)
    (t : String)
    (h : (df.filter (inBox region)).filter (fun row => decide (row.time = t)) ≠ []) :
    ∃ row,
      (define_minima_per_time_in_region df region).filter
          (fun r' => decide (r'.time = t)) = [row] ∧
      row ∈ (df.filter (inBox region)).filter (fun r' => decide (r'.time = t)) ∧
      (∀ r' ∈ (df.filter (inBox region)).filter (fun r' => decide (r'.time = t)),
        row.ActCenPres ≤ r'.ActCenPres) ∧
      (∃ l1 l2, (df.filter (inBox region)).filter (fun r' => decide (r'.time = t)) =
          l1 ++ row :: l2 ∧ ∀ r' ∈ l1, row.ActCenPres < r'.ActCenPres) ∧
      (∀ r' ∈ define_minima_per_time_in_region df region, inBox region r' = true) := by
  set df2 := df.filter (inBox region) with hdf2
  obtain ⟨row, hsel, htime, hmem, hmin, hfirst⟩ := selectRow_spec h
  refine ⟨row, ?_, hmem, hmin, hfirst, ?_⟩
  · unfold define_minima_per_time_in_region
    dsimp only
    rw [← hdf2]
    rw [filter_time_filterMap _ (nodup_sortedUniqueTimes df2) df2
      (selectRow_total df2) t]
    have htmem : t ∈ sortedUniqueTimes df2 := by
      obtain ⟨r1, hr1⟩ := List.exists_mem_of_ne_nil _ h
      exact mem_sortedUniqueTimes.mpr
        ⟨r1, List.mem_of_mem_filter hr1, by simpa using (List.mem_filter.mp hr1).2⟩
    rw [if_pos htmem, hsel]
    rfl
  · intro r' hr'
    exact (List.mem_filter.mp (mem_define_minima hr')).2

/-- Claim C4, witness: on `insideOutsideDf` the selection returns the inside
row even though the outside row is deeper. -/
theorem deepest_low_per_time_selected_witness :
    ∃ row,
      (define_minima_per_time_in_region insideOutsideDf ASL_REGION).filter
          (fun r' => decide (r'.time = "1979-01-01")) = [row] ∧
      row ∈ (insideOutsideDf.filter (inBox ASL_REGION)).filter
          (fun r' => decide (r'.time = "1979-01-01")) ∧
      (∀ r' ∈ (insideOutsideDf.filter (inBox ASL_REGION)).filter
          (fun r' => decide (r'.time = "1979-01-01")),
        row.ActCenPres ≤ r'.ActCenPres) ∧
      (∃ l1 l2, (insideOutsideDf.filter (inBox ASL_REGION)).filter
          (fun r' => decide (r'.time = "1979-01-01")) =
          l1 ++ row :: l2 ∧ ∀ r' ∈ l1, row.ActCenPres < r'.ActCenPres) ∧
      (∀ r' ∈ define_minima_per_time_in_region insideOutsideDf ASL_REGION,
        inBox ASL_REGION r' = true) :=
  deepest_low_per_time_selected insideOutsideDf ASL_REGION "1979-01-01"
    (by with_unfolding_all decide)

/-! ### Claim theorems -/
/-- Claim C3: the bounding-box filter of the ASL selection keeps a candidate
row exactly when `west < lon < east` and `south < lat < north` with strict
inequalities; a candidate whose `lon` equals `west` or `east`, or whose `lat`
equals `south` or `north`, is excluded from selection. -/
theorem strict_bounding_box_filter (region : Region)
    (hwe : region.west < region.east) (hsn : region.south < region.north)
    (df : List Row) (row : Row) :
    (row ∈ df.filter (inBox region) ↔
      row ∈ df ∧ region.west < row.lon ∧ row.lon < region.east ∧
        region.south < row.lat ∧ row.lat < region.north) ∧
    ((row.lon = region.west ∨ row.lon = region.east ∨ row.lat = region.south ∨
        row.lat = region.north) →
      row ∉ define_minima_per_time_in_region df region) := by
  constructor
  · rw [List.mem_filter]
    unfold inBox
    simp [and_assoc]
  · intro hb hmem
    have hfil := List.mem_filter.mp (mem_define_minima hmem)
    have hx := hfil.2
    unfold inBox at hx
    simp only [Bool.and_eq_true, decide_eq_true_eq] at hx
    obtain ⟨⟨⟨h1, h2⟩, h3⟩, h4⟩ := hx
    rcases hb with hb | hb | hb | hb
    · rw [hb] at h1; exact lt_irrefl _ h1
    · rw [hb] at h2; exact lt_irrefl _ h2
    · rw [hb] at h3; exact lt_irrefl _ h3
    · rw [hb] at h4; exact lt_irrefl _ h4

set_option maxRecDepth 10000 in
/-- Claim C3, witness: for the concrete ASL box, a row with `lon = west` is
excluded from selection while a row strictly inside the box passes the
filter. -/
theorem strict_bounding_box_filter_witness :
    ASL_REGION.west < ASL_REGION.east ∧ ASL_REGION.south < ASL_REGION.north ∧
    westBoundaryRow ∉
      define_minima_per_time_in_region [westBoundaryRow] ASL_REGION ∧
    insideBoxRow ∈ [insideBoxRow].filter (inBox ASL_REGION) :=
  ⟨by with_unfolding_all decide, by with_unfolding_all decide,
    (strict_bounding_box_filter ASL_REGION (by with_unfolding_all decide)
      (by with_unfolding_all decide) [westBoundaryRow] westBoundaryRow).2
      (Or.inl rfl),
    (strict_bounding_box_filter ASL_REGION (by with_unfolding_all decide)
      (by with_unfolding_all decide) [insideBoxRow] insideBoxRow).1.mpr
      (by with_unfolding_all decide)⟩

/-- Claim C2: every candidate row emitted by `get_lows` sits at an ocean grid
cell (`mask < MASK_THRESHOLD`), with `ActCenPres` equal to the original
pressure there — filling land with the field's maximum guarantees no peak can
be detected on land, even when the global minimum is on a land pixel — and
every non-land cell keeps its original value in the land-filled field. -/
theorem candidates_never_on_land {nr nc : Nat} (da : Fin nr → Fin nc → ℚ)
    (mask : Fin nr → Fin nc → ℚ) (lats : Fin nr → ℚ) (lons : Fin nc → ℚ)
    (ts : String) :
    (∀ row ∈ get_lows da mask lats lons ts, ∃ i j,
        row.lat = lats i ∧ row.lon = lons j ∧ mask i j < MASK_THRESHOLD ∧
          row.ActCenPres = da i j) ∧
    (∀ i j, mask i j < MASK_THRESHOLD →
      filledField da mask i j = some (da i j)) := by
  constructor
  · intro row hrow
    unfold get_lows at hrow
    dsimp only at hrow
    obtain ⟨c, hc, hrowc⟩ := List.mem_map.mp hrow
    obtain ⟨hlmax, habove⟩ := mem_peak_local_max hc
    have hmaskc : mask c.1 c.2 < MASK_THRESHOLD := by
      by_contra hmask
      obtain ⟨v, tv, hg, ht, hlt⟩ := aboveThreshold_some habove
      obtain ⟨S, hS, htv⟩ := Option.map_eq_some'.mp ht
      have hfill : filledField da mask c.1 c.2 =
          ((cells nr nc).map (fun c' => da c'.1 c'.2)).max? := by
        unfold filledField
        rw [if_neg hmask]
      have hw : ∃ w, filledField da mask c.1 c.2 = some w ∧ v = w * (-1) := by
        unfold invertField at hg
        rcases hw0 : filledField da mask c.1 c.2 with _ | w
        · rw [hw0] at hg; simp at hg
        · rw [hw0] at hg
          exact ⟨w, rfl, by simpa using hg.symm⟩
      obtain ⟨w, hw0, hvw⟩ := hw
      have hM : ((cells nr nc).map (fun c' => da c'.1 c'.2)).max? = some w := by
        rw [← hfill, hw0]
      have hSw : S ≤ w := asl_sector_mean_le_max da mask lats lons hS hM
      subst htv
      subst hvw
      nlinarith
    refine ⟨c.1, c.2, ?_, ?_, hmaskc, ?_⟩
    · rw [← hrowc]
    · rw [← hrowc]
    · rw [← hrowc]
      have hfill : filledField da mask c.1 c.2 = some (da c.1 c.2) := by
        unfold filledField
        rw [if_pos hmaskc]
      simp [hfill]
  · intro i j h
    unfold filledField
    rw [if_pos h]

set_option maxRecDepth 10000 in
/-- Claim C2, witness: on the concrete all-ocean grid `daLow` the detected
candidate `oceanLowRow` sits at an ocean cell holding its original 900 hPa
value. -/
theorem candidates_never_on_land_witness :
    ∃ i j, oceanLowRow.lat = latsIn i ∧ oceanLowRow.lon = lonsIn j ∧
      maskOcean i j < MASK_THRESHOLD ∧ oceanLowRow.ActCenPres = daLow i j :=
  (candidates_never_on_land daLow maskOcean latsIn lonsIn "1979-01-01").1
    oceanLowRow (by with_unfolding_all decide)

/-- Claim C5, counterexample: on the fixed field `daLow` (all ocean), raising
the SectorPres threshold from 800 to 950 *increases* the number of qualifying
peaks from 0 to 1 — `threshold_abs = -SectorPres`, so a larger `SectorPres`
is a weaker cut-off, not a stronger one. -/
theorem raising_sectorpres_increases_peaks :
    (800 : ℚ) < 950 ∧
    (qualifyingPeaks daLow maskOcean 800).length = 0 ∧
    (qualifyingPeaks daLow maskOcean 950).length = 1 := by
  with_unfolding_all decide

/-- Claim C5 (amended): raising the `SectorPres` threshold while holding the
field fixed never *decreases* the number of qualifying peaks (equivalently,
raising `threshold_abs` itself never increases it). -/
theorem qualifying_peaks_monotone {nr nc : Nat} (da : Fin nr → Fin nc → ℚ)
    (mask : Fin nr → Fin nc → ℚ) {S S' : ℚ} (h : S ≤ S') :
    (qualifyingPeaks da mask S).length ≤ (qualifyingPeaks da mask S').length := by
  unfold qualifyingPeaks
  refine (List.monotone_filter_right _ ?_).length_le
  intro c hc
  rw [Bool.and_eq_true] at hc ⊢
  refine ⟨hc.1, ?_⟩
  obtain ⟨v, tv, hg, ht, hlt⟩ := aboveThreshold_some hc.2
  have htv : tv = S * (-1) := by
    injection ht with ht'
    exact ht'.symm
  rw [hg]
  unfold aboveThreshold
  have : S' * (-1) < v := by
    have h1 : S' * (-1) ≤ S * (-1) := by nlinarith
    rw [htv] at hlt
    exact lt_of_le_of_lt h1 hlt
  simpa using this

/-- Claim C5 (amended), witness: the monotone bound evaluated between the
concrete thresholds 800 ≤ 950 on `daLow`. -/
theorem qualifying_peaks_monotone_witness :
    (800 : ℚ) ≤ 950 ∧
    (qualifyingPeaks daLow maskOcean 800).length ≤
      (qualifyingPeaks daLow maskOcean 950).length :=
  ⟨by norm_num, qualifying_peaks_monotone daLow maskOcean (by norm_num)⟩

/-- Claim C6: evaluation at the failing input.  On `latsEdge`/`maskSouthLand`
the ASL box contains no ocean pixel, so the sector mean is missing (NaN);
the source's `if threshold is None` guard is false (a NaN numpy scalar is not
Python `None`), `threshold_abs` is NaN, every peak comparison fails, and
`get_lows` returns no candidate — whereas the spec's fallback (threshold
from the inverted field's own mean, `get_lows_fallback_spec`) does detect the
900 hPa low.  The fallback branch the claim describes is present in the
source but unreachable. -/
theorem threshold_fallback_never_fires :
    asl_sector_mean (fun i j => some (daLow i j)) maskSouthLand latsEdge lonsIn
      ASL_REGION = none ∧
    get_lows daLow maskSouthLand latsEdge lonsIn "1979-01-01" = [] ∧
    get_lows_fallback_spec daLow maskSouthLand latsEdge lonsIn "1979-01-01" ≠ [] := by
  with_unfolding_all decide

/-- Claim C7, counterexample: calling `read_msl_data` before the land-sea
mask is loaded does *not* abort the run — it returns normally (`Except.ok`,
never `Except.error`) with the calculator state unchanged, merely logging the
error message, and the run continues with partial state. -/
theorem read_msl_before_mask_counterexample :
    read_msl_data emptyCalc () (fun _ d => d) id id =
      Except.ok (emptyCalc,
        ["Must read in land-sea mask before mean sea level data."]) ∧
    ∀ e, read_msl_data emptyCalc () (fun _ d => d) id id ≠ Except.error e := by
  constructor
  · rfl
  · intro e h
    exact absurd (rfl.symm.trans h) (by simp [read_msl_data, emptyCalc])

/-- Claim C7 (amended): attempting to read pressure data before the land-sea
mask has been loaded is detected by `read_msl_data`, which logs
"Must read in land-sea mask before mean sea level data." and returns
immediately with the calculator state unchanged — no pressure data is loaded,
but the run is not aborted (no exception is raised). -/
theorem read_msl_requires_mask {μ δ : Type} (s : ASLICalculator μ δ) (d : δ)
    (wm : μ → δ → δ) (sr : δ → δ) (hp : δ → δ)
    (h : s.land_sea_mask = none) :
    read_msl_data s d wm sr hp =
      Except.ok (s, ["Must read in land-sea mask before mean sea level data."]) := by
  unfold read_msl_data
  rw [h]

/-- Claim C7 (amended), witness: the early return evaluated on the freshly
constructed calculator state. -/
theorem read_msl_requires_mask_witness :
    emptyCalc.land_sea_mask = none ∧
    read_msl_data emptyCalc () (fun _ d => d) id id =
      Except.ok (emptyCalc,
        ["Must read in land-sea mask before mean sea level data."]) :=
  ⟨rfl, read_msl_requires_mask emptyCalc () (fun _ d => d) id id rfl⟩

/-- Claim C8: the per-time-step pipeline (`get_lows` followed by
`define_minima_per_time_in_region`) is a pure function of the pressure field,
mask, coordinates, time label and region — two runs on equal inputs produce
identical output tables, same rows, same values, same order. -/
theorem detection_pipeline_deterministic {nr nc : Nat}
    (da da' : Fin nr → Fin nc → ℚ) (mask mask' : Fin nr → Fin nc → ℚ)
    (lats lats' : Fin nr → ℚ) (lons lons' : Fin nc → ℚ)
    (ts ts' : String) (r r' : Region)
    (h1 : da = da') (h2 : mask = mask') (h3 : lats = lats') (h4 : lons = lons')
    (h5 : ts = ts') (h6 : r = r') :
    detect_and_select da mask lats lons ts r =
      detect_and_select da' mask' lats' lons' ts' r' := by
  subst h1
  subst h2
  subst h3
  subst h4
  subst h5
  subst h6
  rfl

/-- Claim C8, witness: two runs over the concrete grid `daLow` coincide. -/
theorem detection_pipeline_deterministic_witness :
    detect_and_select daLow maskOcean latsIn lonsIn "1979-01-01" ASL_REGION =
      detect_and_select daLow maskOcean latsIn lonsIn "1979-01-01" ASL_REGION :=
  detection_pipeline_deterministic daLow daLow maskOcean maskOcean latsIn latsIn
    lonsIn lonsIn "1979-01-01" "1979-01-01" ASL_REGION ASL_REGION
    rfl rfl rfl rfl rfl rfl

/-- Claim C10: `_get_lows_by_time` is well-defined exactly for
`slice_by = "time"` or `"season"`, returning `get_lows` of the corresponding
slice; for any other `slice_by` it fails with an unbound-variable error
before `get_lows` is invoked. -/
theorem get_lows_by_time_dispatch {nr nc : Nat} (da : TimeStack nr nc)
    (slice_by : String) (t : Nat) (mask : Fin nr → Fin nc → ℚ)
    (lats : Fin nr → ℚ) (lons : Fin nc → ℚ) :
    (slice_by = "time" →
      _get_lows_by_time da slice_by t mask lats lons =
        Except.ok (get_lows (da.fieldAtTime t) mask lats lons (da.timeLabel t))) ∧
    (slice_by = "season" →
      _get_lows_by_time da slice_by t mask lats lons =
        Except.ok (get_lows (da.fieldAtSeason t) mask lats lons
          (da.seasonLabel t))) ∧
    (slice_by ≠ "time" → slice_by ≠ "season" →
      _get_lows_by_time da slice_by t mask lats lons =
        Except.error
          "UnboundLocalError: local variable da_t referenced before assignment") := by
  refine ⟨?_, ?_, ?_⟩
  · intro h
    subst h
    unfold _get_lows_by_time
    rw [if_neg (by decide), if_pos rfl]
  · intro h
    subst h
    unfold _get_lows_by_time
    rw [if_pos rfl]
  · intro h1 h2
    unfold _get_lows_by_time
    rw [if_neg h2, if_neg h1]

/-- Claim C10, witness: the three dispatch branches evaluated on the concrete
stack `constStack`, including the failing `slice_by = "month"`. -/
theorem get_lows_by_time_dispatch_witness :
    _get_lows_by_time constStack "time" 0 maskOcean latsIn lonsIn =
      Except.ok (get_lows (constStack.fieldAtTime 0) maskOcean latsIn lonsIn
        (constStack.timeLabel 0)) ∧
    _get_lows_by_time constStack "season" 0 maskOcean latsIn lonsIn =
      Except.ok (get_lows (constStack.fieldAtSeason 0) maskOcean latsIn lonsIn
        (constStack.seasonLabel 0)) ∧
    _get_lows_by_time constStack "month" 0 maskOcean latsIn lonsIn =
      Except.error
        "UnboundLocalError: local variable da_t referenced before assignment" :=
  ⟨(get_lows_by_time_dispatch constStack "time" 0 maskOcean latsIn lonsIn).1 rfl,
   (get_lows_by_time_dispatch constStack "season" 0 maskOcean latsIn lonsIn).2.1 rfl,
   (get_lows_by_time_dispatch constStack "month" 0 maskOcean latsIn lonsIn).2.2
     (by decide) (by decide)⟩

end Asli

